import Mathlib

/-!
Shallow embedding of `webpack-node-utils` (homer0/webpack-node-utils):
the `WebpackNodeUtilsRunner` plugin (`src/runner.js`) and the static
helpers `config`, `externals`, `_loadConfig` (`src/index.js`), together
with proofs of the behavioural claims about them.

JavaScript objects are modelled as ordered association lists
(`List (String × _)`) with first-occurrence lookup and
update-in-place-or-append assignment, matching the insertion-order
semantics of plain JS objects with unique string keys.
-/

/-- A JavaScript field value, as far as the library inspects values: strings,
numbers (epoch timestamps), booleans and null. -/
inductive JsVal where
  | str (s : String)
  | num (n : Nat)
  | boolean (b : Bool)
  | nullV
  deriving DecidableEq, Repr

/-- JavaScript truthiness for the values of `JsVal`. -/
def jsTruthy : JsVal → Bool
  | .str s => !(s == "")
  | .num n => !(n == 0)
  | .boolean b => b
  | .nullV => false

/-- JavaScript string coercion (template-literal interpolation) for `JsVal`. -/
def jsToStr : JsVal → String
  | .str s => s
  | .num n => toString n
  | .boolean b => if b then "true" else "false"
  | .nullV => "null"

/-- First-occurrence lookup in an ordered association list (JS property read). -/
def objGet {α : Type} (o : List (String × α)) (k : String) : Option α :=
  (o.find? (fun p => p.1 == k)).map Prod.snd

/-- JS property write: update the existing key in place, otherwise append. -/
def objSet {α : Type} : List (String × α) → String → α → List (String × α)
  | [], k, v => [(k, v)]
  | p :: rest, k, v =>
    if p.1 == k then (k, v) :: rest else p :: objSet rest k v

/-- `Object.assign(base, upd)`: every key of `upd`, in order, is written onto `base`. -/
def objAssign {α : Type} (base upd : List (String × α)) : List (String × α) :=
  upd.foldl (fun acc p => objSet acc p.1 p.2) base

/-- The JS `delete o[k]` operation on the association-list model. -/
def objDelete {α : Type} (o : List (String × α)) (k : String) : List (String × α) :=
  o.filter (fun p => !(p.1 == k))

/-- Last-binding lookup: the value the final JS iteration write would leave for `k`. -/
def lookupLast : List (String × String) → String → Option String
  | [], _ => none
  | p :: rest, k =>
    match lookupLast rest k with
    | some v => some v
    | none => if p.1 == k then some p.2 else none

/-- Is the first character list a leading segment of the second? -/
def leadsChars : List Char → List Char → Bool
  | [], _ => true
  | _ :: _, [] => false
  | p :: ps, c :: cs => p == c && leadsChars ps cs

/-- Does the second character list contain the first as a contiguous run? -/
def hasSubChars (pat : List Char) : List Char → Bool
  | [] => leadsChars pat []
  | c :: cs => leadsChars pat (c :: cs) || hasSubChars pat cs

/-- JS `s.includes(pat)` / `s.indexOf(pat) >= 0` on strings. -/
def containsStr (s pat : String) : Bool :=
  hasSubChars pat.toList s.toList

/-- The regular expression test `/\.js$/i`: the string ends in a dot followed
by `js` in any letter case. -/
def endsWithJsCI (p : String) : Bool :=
  match p.toList.reverse with
  | a :: b :: c :: _ => (a == 's' || a == 'S') && (b == 'j' || b == 'J') && (c == '.')
  | _ => false

/-- One entry of the `compilation.assets` mapping handed to the `after-emit`
hook: the plugin only reads the artifact's `existsAt` disk path (`none`
models an absent or undefined field, `some ""` an empty one). -/
structure Asset where
  existsAt : Option String
  deriving DecidableEq, Repr

/-- Property read `compilation.assets[a]` on the ordered assets mapping. -/
def lookupAsset (assets : List (String × Asset)) (k : String) : Option Asset :=
  (assets.find? (fun p => p.1 == k)).map Prod.snd

/-- The per-asset half of the runner filter:
`compilation.assets[a].existsAt && compilation.assets[a].existsAt.match(/\.js$/i)`
(truthiness of the field, then the regular-expression test). -/
def assetIsJs : Option String → Bool
  | some p => !(p == "") && endsWithJsCI p
  | none => false

/-- The candidate computation of `_onAssetsEmitted` (src/runner.js, the
`Object.keys(compilation.assets).filter(...)` expression): keys that do not
contain `hot-update` and whose asset has a truthy `existsAt` matching
`/\.js$/i`. -/
def entryCandidates (assets : List (String × Asset)) : List String :=
  (assets.map Prod.fst).filter (fun a =>
    !(containsStr a "hot-update") &&
    (match lookupAsset assets a with
     | some ast => assetIsJs ast.existsAt
     | none => false))

/-- JS truthiness of the runner's `_entry` field (`null`, missing or empty
string are falsy). -/
def strTruthy : Option String → Bool
  | some s => !(s == "")
  | none => false

/-- One `console.log` line of the runner's `_log` method: a truthy message is
prefixed with the plugin tag, a falsy one logs an empty separator line.
(The terminal color wrapper is presentation only and is not modelled.) -/
def logLine (msg : String) : String :=
  if msg == "" then "" else "[WebpackNodeUtilsRunner] " ++ msg

/-- The `_logAvailableEntries` line: the entries joined with a comma. -/
def availableLog (entries : List String) : String :=
  logLine ("These are the available entries: " ++ String.intercalate ", " entries)

/-- JS template interpolation of the nullable `_entry` field. -/
def jsTemplateOpt : Option String → String
  | some s => s
  | none => "null"

/-- The mutable state of one `WebpackNodeUtilsRunner` instance. `nextPid` is
the model's fresh-process-identifier supply for `fork`. -/
structure RunnerState where
  entry : Option String
  entryPath : Option String
  running : Bool
  inst : Option Nat
  setup : Bool
  nextPid : Nat
  deriving DecidableEq, Repr

/-- The runner constructor: `this._entry = entry || null`, every other field
starts cleared. -/
def mkRunner (entry : Option String) : RunnerState :=
  { entry := if strTruthy entry then entry else none
    entryPath := none
    running := false
    inst := none
    setup := false
    nextPid := 0 }

/-- The observable effects of one event-handler invocation: the `fork` calls
(fresh process id and the `_entryPath` argument), the `kill` calls (process
id), the `console.log` lines, and the number of continuation-callback
invocations. -/
structure Trace where
  forks : List (Nat × Option String)
  kills : List Nat
  logs : List String
  callbacks : Nat
  deriving DecidableEq, Repr

/-- The trace of a handler that produced no observable effect. -/
def Trace.empty : Trace := ⟨[], [], [], 0⟩

/-- Concatenation of the effects of consecutive handler invocations. -/
def Trace.append (t u : Trace) : Trace :=
  ⟨t.forks ++ u.forks, t.kills ++ u.kills, t.logs ++ u.logs, t.callbacks + u.callbacks⟩

/-- The if/else-if chain of `_onAssetsEmitted` that picks the entry: given
the filtered candidate list and the current `_entry`, it returns the new
`_entry` and the log lines of the taken branch. -/
def resolveEntry (entries : List String) (entry0 : Option String) :
    Option String × List String :=
  if strTruthy entry0 && !(entries.contains (entry0.getD "")) then
    (none,
     [logLine ("The required entry (" ++ entry0.getD "" ++ ") doesn\x27t exist"),
      availableLog entries])
  else if !(strTruthy entry0) && (entries.length == 1) then
    (some (entries.headD ""),
     [logLine ("Using the only available entry: " ++ entries.headD "")])
  else if !(strTruthy entry0) && decide (1 < entries.length) then
    (some (entries.headD ""),
     [logLine ("Doing fallback to the first entry: " ++ entries.headD ""),
      availableLog entries])
  else
    (entry0, [logLine ("Using the following entry: " ++ jsTemplateOpt entry0)])

/-- The trailing `if (this._entry)` block of `_onAssetsEmitted`: when the
chosen entry is truthy it computes
`path.resolve(compilation.assets[this._entry].existsAt)` (with `resolve`
standing for Node's `path.resolve` against the working directory) and the
`Entry file:` log line; otherwise nothing. -/
def entryPathStage (resolve : String → String) (assets : List (String × Asset)) :
    Option String → Option (String × String)
  | some e =>
    if e == "" then none
    else
      some (resolve (((lookupAsset assets e).bind Asset.existsAt).getD ""),
        logLine ("Entry file: " ++
          resolve (((lookupAsset assets e).bind Asset.existsAt).getD "")))
  | none => none

/-- The `after-emit` handler `_onAssetsEmitted(compilation, callback)`: the
resolution logic runs only while `_setup` is unset (and latches it), and the
callback is invoked exactly once on every call. -/
def onAssetsEmitted (resolve : String → String) (assets : List (String × Asset))
    (s : RunnerState) : RunnerState × Trace :=
  if s.setup then (s, ⟨[], [], [], 1⟩)
  else
    let r := resolveEntry (entryCandidates assets) s.entry
    match entryPathStage resolve assets r.1 with
    | some pl =>
      ({ s with setup := true, entry := r.1, entryPath := some pl.1 },
       ⟨[], [], "" :: (r.2 ++ [pl.2]), 1⟩)
    | none =>
      ({ s with setup := true, entry := r.1 },
       ⟨[], [], "" :: r.2, 1⟩)

/-- The `compile` handler `_onCompilationStarts()`: with a truthy entry, the
running flag set and a held process instance, it logs, kills that process,
clears the instance and marks not running; otherwise it does nothing. -/
def onCompilationStarts (s : RunnerState) : RunnerState × Trace :=
  if strTruthy s.entry && s.running && s.inst.isSome then
    ({ s with inst := none, running := false },
     ⟨[], s.inst.toList, [logLine "Stopping bundle process"], 0⟩)
  else (s, Trace.empty)

/-- The `done` handler `_onCompilationEnds()`: with a truthy entry and the
running flag unset, it forks `this._entryPath`, stores the new instance,
logs a separator plus the start line and marks running; otherwise nothing. -/
def onCompilationEnds (s : RunnerState) : RunnerState × Trace :=
  if strTruthy s.entry && !s.running then
    ({ s with inst := some s.nextPid, running := true, nextPid := s.nextPid + 1 },
     ⟨[(s.nextPid, s.entryPath)], [], ["", logLine "Starting bundle process"], 0⟩)
  else (s, Trace.empty)

/-- The three compiler events the runner hooks in `apply`. -/
inductive RunnerEvent where
  | afterEmit (assets : List (String × Asset))
  | compile
  | done
  deriving Repr

/-- Dispatch of one compiler event to the corresponding handler. -/
def runnerStep (resolve : String → String) (s : RunnerState) :
    RunnerEvent → RunnerState × Trace
  | .afterEmit assets => onAssetsEmitted resolve assets s
  | .compile => onCompilationStarts s
  | .done => onCompilationEnds s

/-- A whole sequence of compiler events, with the concatenated trace. -/
def runnerRun (resolve : String → String) (s : RunnerState) :
    List RunnerEvent → RunnerState × Trace
  | [] => (s, Trace.empty)
  | e :: es =>
    let r := runnerStep resolve s e
    let rest := runnerRun resolve r.1 es
    (rest.1, r.2.append rest.2)

/-- The manifest (`package.json`) as far as `externals` reads it: the
`dependencies` and `devDependencies` objects, of which only the keys are
used. -/
structure Manifest where
  dependencies : List (String × String)
  devDependencies : List (String × String)
  deriving DecidableEq, Repr

/-- `WebpackNodeUtils.externals(extras, addDev, defaults, ignore)`
(src/index.js): an externals mapping from the manifest passed in for the
`package.json` read. `none` for `extras`, `defaults` or `ignore` models the
omitted (undefined) argument; `addDev := false` models the omitted flag. -/
def externals (packageJSON : Manifest) (extras : Option (List (String × String)))
    (addDev : Bool) (defaults : Option (List String)) (ignore : Option (List String)) :
    List (String × String) :=
  let deps := packageJSON.dependencies.map Prod.fst
  let devDeps := if addDev then packageJSON.devDependencies.map Prod.fst else []
  let defaultsDeps := defaults.getD ["webpack-node-utils", "colors/safe"]
  let ignoreDeps := ignore.getD ["normalize.css", "font-awesome", "react-tap-event-plugin"]
  let result := ((defaultsDeps ++ deps) ++ devDeps).foldl
    (fun acc pckg =>
      if ignoreDeps.contains pckg then acc
      else objSet acc pckg ("commonjs " ++ pckg)) []
  match extras with
  | some ex => ex.foldl (fun acc nm => objSet acc nm.1 ("commonjs " ++ nm.2)) result
  | none => result

/-- Node's `path.join(a, b)` for the already-normalized inputs the loader
builds: the two segments joined by a separator. -/
def pathJoin (a b : String) : String := a ++ "/" ++ b

/-- A loaded configuration module: a lookup of exported configuration
functions by name, where the empty name stands for the default export
(`configModule(params)` versus `configModule[fn](params)`); `none` models a
missing export. -/
def ConfigModule : Type := String → Option (List (String × JsVal) → List (String × JsVal))

/-- The module system seen through `WebpackNodeUtils.require`: a mapping from
the joined root-relative path to the module found there (`none` is a
module-not-found failure). -/
def ModuleEnv : Type := String → Option ConfigModule

/-- `WebpackNodeUtils._loadConfig(directory, name, params, fn)` (src/index.js):
requires `{directory}/{name}.js` relative to `rootPath`, calls the selected
export with `params`, and when the result has a truthy `extends` field loads
that parent recursively with the same `params` and no variant, deletes the
field and merges the child on top via the external `webpack-merge` function
`merge`. The `fuel` argument is the model of JS's unbounded recursion: `none`
also results when the recursion never terminates at any depth. -/
def loadConfig (env : ModuleEnv) (rootPath : String)
    (merge : List (String × JsVal) → List (String × JsVal) → List (String × JsVal)) :
    Nat → String → String → List (String × JsVal) → String →
    Option (List (String × JsVal))
  | 0, _, _, _, _ => none
  | fuel + 1, directory, name, params, fn =>
    match env (pathJoin rootPath (pathJoin directory (name ++ ".js"))) with
    | none => none
    | some m =>
      match m fn with
      | none => none
      | some f =>
        let cfg := f params
        match objGet cfg "extends" with
        | some v =>
          if jsTruthy v then
            match loadConfig env rootPath merge fuel directory (jsToStr v) params "" with
            | none => none
            | some base => some (merge base (objDelete cfg "extends"))
          else some cfg
        | none => some cfg

/-- The parameter bag built at the top of `WebpackNodeUtils.config`:
`Object.assign({hash, hashStr}, params || {})` with
`hash = useHash ? Date.now() : ''` and `hashStr = useHash ? "." + hash : ''`;
`now` stands for the `Date.now()` reading of the call. -/
def configParams (now : Nat) (useHash : Bool) (params : Option (List (String × JsVal))) :
    List (String × JsVal) :=
  objAssign
    [("hash", if useHash then JsVal.num now else JsVal.str ""),
     ("hashStr", JsVal.str (if useHash then "." ++ toString now else ""))]
    (params.getD [])

/-- `WebpackNodeUtils.config(directory, target, type, useHash, params, fn)`
(src/index.js): builds the parameter bag, defaults `fn` to the default
export (`fn = fn || ''`), composes `"{target}.{type}"` and delegates to
`loadConfig`. -/
def config (env : ModuleEnv) (rootPath : String)
    (merge : List (String × JsVal) → List (String × JsVal) → List (String × JsVal))
    (now fuel : Nat) (directory target type : String) (useHash : Bool)
    (params : Option (List (String × JsVal))) (fn : Option String) :
    Option (List (String × JsVal)) :=
  loadConfig env rootPath merge fuel directory (target ++ "." ++ type)
    (configParams now useHash params) (fn.getD "")

theorem objGet_cons {α : Type} (p : String × α) (rest : List (String × α)) (k : String) :
    objGet (p :: rest) k = if p.1 == k then some p.2 else objGet rest k := by
  cases h : p.1 == k <;> simp [objGet, List.find?_cons, h]

theorem objGet_objSet {α : Type} (m : List (String × α)) (k : String) (v : α) (q : String) :
    objGet (objSet m k v) q = if q = k then some v else objGet m q := by
  induction m with
  | nil =>
    simp only [objSet, objGet_cons]
    by_cases h : q = k
    · simp [h]
    · simp [h, beq_eq_false_iff_ne.mpr (Ne.symm h), objGet]
  | cons p rest ih =>
    simp only [objSet]
    split
    · next hb =>
      have hpk : p.1 = k := beq_iff_eq.mp hb
      rw [objGet_cons, objGet_cons]
      by_cases h : q = k
      · simp [h]
      · have h1 : (k == q) = false := beq_eq_false_iff_ne.mpr (Ne.symm h)
        have h2 : (p.1 == q) = false := by rw [hpk]; exact h1
        simp [h1, h2, h]
    · next hb =>
      have hpk : ¬p.1 = k := by simpa using hb
      rw [objGet_cons, objGet_cons, ih]
      by_cases hq : p.1 = q
      · have hb2 : (p.1 == q) = true := beq_iff_eq.mpr hq
        have hqk : ¬q = k := fun e => hpk (hq.trans e)
        simp [hb2, hqk]
      · have hb2 : (p.1 == q) = false := beq_eq_false_iff_ne.mpr hq
        simp [hb2]

theorem depsFold_objGet (ign : List String) (l : List String)
    (acc : List (String × String)) (name : String) :
    objGet (l.foldl (fun a pckg =>
        if ign.contains pckg then a else objSet a pckg ("commonjs " ++ pckg)) acc) name =
    if l.contains name && !(ign.contains name) then some ("commonjs " ++ name)
    else objGet acc name := by
  induction l generalizing acc with
  | nil => simp
  | cons x xs ih =>
    rw [List.foldl_cons]
    by_cases hgx : ign.contains x = true
    · rw [if_pos hgx, ih, List.contains_cons]
      by_cases hx : name = x
      · subst hx
        have hmem : name ∈ ign := by simpa using hgx
        simp [hmem]
      · have hbx : (name == x) = false := beq_eq_false_iff_ne.mpr hx
        simp [hbx]
    · have hnm : x ∉ ign := by simpa using hgx
      rw [if_neg hgx, ih, List.contains_cons, objGet_objSet]
      by_cases hx : name = x
      · subst hx
        cases hxs : xs.contains name with
        | true => simp [hnm, hxs]
        | false => simp [hnm, hxs]
      · have hbx : (name == x) = false := beq_eq_false_iff_ne.mpr hx
        simp [hbx, hx]

theorem extrasFold_objGet (ex : List (String × String))
    (acc : List (String × String)) (name : String) :
    objGet (ex.foldl (fun a nm => objSet a nm.1 ("commonjs " ++ nm.2)) acc) name =
    match lookupLast ex name with
    | some p => some ("commonjs " ++ p)
    | none => objGet acc name := by
  induction ex generalizing acc with
  | nil => simp [lookupLast]
  | cons x xs ih =>
    simp only [List.foldl_cons, ih, lookupLast]
    cases hl : lookupLast xs name with
    | some v => simp
    | none =>
      by_cases hx : x.1 = name
      · have hb : (x.1 == name) = true := beq_iff_eq.mpr hx
        simp [hb, objGet_objSet, hx.symm]
      · have hb : (x.1 == name) = false := beq_eq_false_iff_ne.mpr hx
        have hq : ¬name = x.1 := fun e => hx e.symm
        simp [hb, objGet_objSet, hq]

/-- C4: for every manifest and argument combination, `externals` yields the
mapping whose value at `name` is `"commonjs " ++ path` for the last `extras`
binding of `name` (extras bypass the ignore list and overwrite earlier
entries), and otherwise `"commonjs " ++ name` exactly when `name` occurs in
`defaults ++ dependencies ++ (devDependencies if addDev)` and is not ignored;
the omitted `defaults` and `ignore` arguments fall back to the built-in
two-entry and three-entry lists, omitted `extras` to empty, and the omitted
dev flag to `false`. -/
theorem externals_characterization (packageJSON : Manifest)
    (extras : Option (List (String × String))) (addDev : Bool)
    (defaults : Option (List String)) (ignore : Option (List String)) (name : String) :
    objGet (externals packageJSON extras addDev defaults ignore) name =
      match lookupLast (extras.getD []) name with
      | some p => some ("commonjs " ++ p)
      | none =>
        if ((defaults.getD ["webpack-node-utils", "colors/safe"] ++
              packageJSON.dependencies.map Prod.fst) ++
             (if addDev then packageJSON.devDependencies.map Prod.fst else [])).contains name
            && !((ignore.getD
                  ["normalize.css", "font-awesome", "react-tap-event-plugin"]).contains name)
        then some ("commonjs " ++ name)
        else none := by
  cases extras with
  | none =>
    simp only [externals, Option.getD, lookupLast]
    rw [depsFold_objGet]
    rfl
  | some ex =>
    simp only [externals, Option.getD]
    rw [extrasFold_objGet]
    cases lookupLast ex name with
    | some p => rfl
    | none =>
      rw [depsFold_objGet]
      rfl

/-- C1: with a selected (truthy) entry, `done` while stopped forks exactly one
process from the stored `_entryPath`, stores the handle and marks running;
`done` while running changes nothing and forks nothing; `compile` while
running with a held handle kills exactly that one process, clears the handle
and marks stopped; `compile` while stopped or without a handle changes
nothing and kills nothing. -/
theorem runner_start_stop_transitions (s : RunnerState)
    (h : strTruthy s.entry = true) :
    (s.running = false →
      onCompilationEnds s =
        ({ s with inst := some s.nextPid, running := true, nextPid := s.nextPid + 1 },
         ⟨[(s.nextPid, s.entryPath)], [], ["", logLine "Starting bundle process"], 0⟩)) ∧
    (s.running = true → onCompilationEnds s = (s, Trace.empty)) ∧
    (∀ pid, s.running = true → s.inst = some pid →
      onCompilationStarts s =
        ({ s with inst := none, running := false },
         ⟨[], [pid], [logLine "Stopping bundle process"], 0⟩)) ∧
    ((s.running = false ∨ s.inst = none) → onCompilationStarts s = (s, Trace.empty)) := by
  refine ⟨?_, ?_, ?_, ?_⟩
  · intro hr
    simp [onCompilationEnds, h, hr]
  · intro hr
    simp [onCompilationEnds, h, hr]
  · intro pid hr hi
    simp [onCompilationStarts, h, hr, hi]
  · intro hd
    cases hd with
    | inl hr => simp [onCompilationStarts, h, hr]
    | inr hi => simp [onCompilationStarts, h, hi]

/-- A concrete resolved runner state used to witness the C1 transitions. -/
def c1State : RunnerState :=
  { entry := some "app", entryPath := some "/x/app.js", running := false,
    inst := none, setup := true, nextPid := 0 }

/-- Witness for C1 at the concrete state `c1State`. -/
theorem runner_start_stop_transitions_witness :
    strTruthy c1State.entry = true ∧
    (onCompilationEnds c1State).2.forks = [(0, some "/x/app.js")] ∧
    (onCompilationEnds c1State).1.running = true ∧
    onCompilationStarts c1State = (c1State, Trace.empty) :=
  ⟨rfl,
   by rw [(runner_start_stop_transitions c1State rfl).1 rfl]; rfl,
   by rw [(runner_start_stop_transitions c1State rfl).1 rfl],
   (runner_start_stop_transitions c1State rfl).2.2.2 (Or.inl rfl)⟩

/-- C10: a runner constructed with a non-empty entry name passes the
entry-selected guard of the `done` handler even before any `after-emit`
event, so it forks a child process whose argument is the still-null
`_entryPath`; the guard never checks that resolution has happened. -/
theorem runner_done_before_resolution (resolve : String → String) (e : String)
    (h : e ≠ "") :
    runnerStep resolve (mkRunner (some e)) RunnerEvent.done =
      ({ entry := some e, entryPath := none, running := true,
         inst := some 0, setup := false, nextPid := 1 },
       ⟨[(0, none)], [], ["", logLine "Starting bundle process"], 0⟩) := by
  have hb : (e == "") = false := beq_eq_false_iff_ne.mpr h
  simp [runnerStep, onCompilationEnds, mkRunner, strTruthy, hb]

/-- Witness for C10 at the concrete entry name `app`. -/
theorem runner_done_before_resolution_witness :
    "app" ≠ "" ∧
    (runnerStep id (mkRunner (some "app")) RunnerEvent.done).2.forks = [(0, none)] :=
  ⟨by decide, by rw [runner_done_before_resolution id "app" (by decide)]⟩

/-- C3: a name is an entry candidate of the first `after-emit` event exactly
when it is a key of the artifacts mapping, does not contain a `hot-update`
fragment, and its asset's on-disk path is a present, non-empty path matching
the finished-script pattern `/\.js$/i`; a name failing any condition is never
a candidate. -/
theorem entryCandidates_characterization (assets : List (String × Asset)) (a : String) :
    a ∈ entryCandidates assets ↔
      (a ∈ assets.map Prod.fst ∧ containsStr a "hot-update" = false ∧
       ∃ p, (lookupAsset assets a).bind Asset.existsAt = some p ∧
         p ≠ "" ∧ endsWithJsCI p = true) := by
  unfold entryCandidates
  rw [List.mem_filter]
  constructor
  · rintro ⟨hmem, hp⟩
    refine ⟨hmem, ?_, ?_⟩
    · cases hcs : containsStr a "hot-update" with
      | false => rfl
      | true => rw [hcs] at hp; simp at hp
    · cases hla : lookupAsset assets a with
      | none => simp [hla] at hp
      | some ast =>
        simp only [hla] at hp
        cases hex : ast.existsAt with
        | none => simp [hex, assetIsJs] at hp
        | some p =>
          simp only [hex, assetIsJs, Bool.and_eq_true] at hp
          refine ⟨p, ?_, ?_, hp.2.2⟩
          · simp [hla, hex]
          · simpa using hp.2.1
  · rintro ⟨hmem, hcs, p, hbind, hne, hjs⟩
    refine ⟨hmem, ?_⟩
    cases hla : lookupAsset assets a with
    | none => rw [hla] at hbind; simp at hbind
    | some ast =>
      rw [hla] at hbind
      simp only [Option.some_bind] at hbind
      simp only [hla, hcs]
      rw [hbind]
      simp [assetIsJs, hne, hjs]

theorem onAssetsEmitted_latched (resolve : String → String)
    (assets : List (String × Asset)) (s : RunnerState) (h : s.setup = true) :
    onAssetsEmitted resolve assets s = (s, ⟨[], [], [], 1⟩) := by
  simp [onAssetsEmitted, h]

theorem onAssetsEmitted_sets_setup (resolve : String → String)
    (assets : List (String × Asset)) (s : RunnerState) :
    (onAssetsEmitted resolve assets s).1.setup = true := by
  by_cases h : s.setup = true
  · rw [onAssetsEmitted_latched resolve assets s h]
    exact h
  · unfold onAssetsEmitted
    rw [if_neg h]
    cases h2 : entryPathStage resolve assets
        (resolveEntry (entryCandidates assets) s.entry).1 with
    | none => simp [h2]
    | some pl => simp [h2]

theorem onAssetsEmitted_callback_once (resolve : String → String)
    (assets : List (String × Asset)) (s : RunnerState) :
    (onAssetsEmitted resolve assets s).2.callbacks = 1 := by
  by_cases h : s.setup = true
  · rw [onAssetsEmitted_latched resolve assets s h]
  · unfold onAssetsEmitted
    rw [if_neg h]
    cases h2 : entryPathStage resolve assets
        (resolveEntry (entryCandidates assets) s.entry).1 with
    | none => simp [h2]
    | some pl => simp [h2]

/-- C6: the resolution logic of `after-emit` runs exactly once per instance —
every invocation leaves the setup flag latched, an invocation on an
already-latched state returns the state unchanged with no log lines — and
every invocation, on either path, invokes its continuation exactly once. -/
theorem afterEmit_once_and_callback (resolve : String → String)
    (assets : List (String × Asset)) (s : RunnerState) :
    (onAssetsEmitted resolve assets s).1.setup = true ∧
    (s.setup = true → onAssetsEmitted resolve assets s = (s, ⟨[], [], [], 1⟩)) ∧
    (onAssetsEmitted resolve assets s).2.callbacks = 1 :=
  ⟨onAssetsEmitted_sets_setup resolve assets s,
   onAssetsEmitted_latched resolve assets s,
   onAssetsEmitted_callback_once resolve assets s⟩

/-- A concrete artifacts mapping with two finished-script entries. -/
def twoAssets : List (String × Asset) :=
  [("backend", ⟨some "./backend.js"⟩), ("app", ⟨some "./app.js"⟩)]

/-- Witness for C6: a second `after-emit` on the state left by a first one
changes nothing, logs nothing and still fires its continuation. -/
theorem afterEmit_once_and_callback_witness :
    (onAssetsEmitted id twoAssets (mkRunner (some "app"))).1.setup = true ∧
    (onAssetsEmitted id twoAssets
       (onAssetsEmitted id twoAssets (mkRunner (some "app"))).1 =
      ((onAssetsEmitted id twoAssets (mkRunner (some "app"))).1, ⟨[], [], [], 1⟩)) := by
  refine ⟨(afterEmit_once_and_callback id twoAssets (mkRunner (some "app"))).1, ?_⟩
  exact (afterEmit_once_and_callback id twoAssets
      (onAssetsEmitted id twoAssets (mkRunner (some "app"))).1).2.1
    (afterEmit_once_and_callback id twoAssets (mkRunner (some "app"))).1

theorem runner_inert_of_no_entry (resolve : String → String) (s : RunnerState)
    (hs : s.setup = true) (he : s.entry = none) (events : List RunnerEvent) :
    (runnerRun resolve s events).1 = s ∧
    (runnerRun resolve s events).2.forks = [] ∧
    (runnerRun resolve s events).2.kills = [] ∧
    (runnerRun resolve s events).2.logs = [] := by
  induction events with
  | nil => exact ⟨rfl, rfl, rfl, rfl⟩
  | cons e es ih =>
    have hstep : (runnerStep resolve s e).1 = s ∧
        (runnerStep resolve s e).2.forks = [] ∧
        (runnerStep resolve s e).2.kills = [] ∧
        (runnerStep resolve s e).2.logs = [] := by
      cases e with
      | afterEmit assets =>
        rw [show runnerStep resolve s (RunnerEvent.afterEmit assets)
              = onAssetsEmitted resolve assets s from rfl,
            onAssetsEmitted_latched resolve assets s hs]
        exact ⟨rfl, rfl, rfl, rfl⟩
      | compile =>
        simp [runnerStep, onCompilationStarts, he, strTruthy, Trace.empty]
      | done =>
        simp [runnerStep, onCompilationEnds, he, strTruthy, Trace.empty]
    obtain ⟨h1, h2, h3, h4⟩ := hstep
    obtain ⟨i1, i2, i3, i4⟩ := ih
    simp only [runnerRun, h1]
    refine ⟨i1, ?_, ?_, ?_⟩ <;> simp [Trace.append, h1, h2, h3, h4, i2, i3, i4]

/-- C7: if the first `after-emit` ends with no entry selected, every later
event is a permanent no-op for the instance: the state never changes again
and no fork or kill is ever issued, over any subsequent event sequence (the
model is total, so no exception is possible either). -/
theorem runner_permanently_inert (resolve : String → String)
    (assets0 : List (String × Asset)) (s0 : RunnerState)
    (_h0 : s0.setup = false)
    (hna : (onAssetsEmitted resolve assets0 s0).1.entry = none)
    (events : List RunnerEvent) :
    (runnerRun resolve (onAssetsEmitted resolve assets0 s0).1 events).1 =
      (onAssetsEmitted resolve assets0 s0).1 ∧
    (runnerRun resolve (onAssetsEmitted resolve assets0 s0).1 events).2.forks = [] ∧
    (runnerRun resolve (onAssetsEmitted resolve assets0 s0).1 events).2.kills = [] :=
  have hs := onAssetsEmitted_sets_setup resolve assets0 s0
  have h := runner_inert_of_no_entry resolve _ hs hna events
  ⟨h.1, h.2.1, h.2.2.1⟩

/-- Witness for C7: a first `after-emit` whose pre-set entry is missing,
followed by `done`, `compile`, `done` — no forks, no kills, state fixed. -/
theorem runner_permanently_inert_witness :
    (mkRunner (some "random")).setup = false ∧
    (onAssetsEmitted id twoAssets (mkRunner (some "random"))).1.entry = none ∧
    (runnerRun id (onAssetsEmitted id twoAssets (mkRunner (some "random"))).1
       [RunnerEvent.done, RunnerEvent.compile, RunnerEvent.done]).2.forks = [] :=
  ⟨rfl, by decide,
   (runner_permanently_inert id twoAssets (mkRunner (some "random")) rfl (by decide)
     [RunnerEvent.done, RunnerEvent.compile, RunnerEvent.done]).2.1⟩

/-- A configuration module whose every export returns an object extending a
sibling named `a` — together with `cyclicEnv` it realizes a cyclic
`extends` chain. -/
def cyclicModule : ConfigModule :=
  fun _ => some (fun _ => [("extends", JsVal.str "a")])

/-- A module system in which every path resolves to `cyclicModule`, so every
load immediately extends again: the `extends` recursion never terminates. -/
def cyclicEnv : ModuleEnv := fun _ => some cyclicModule

theorem cyclicEnv_diverges
    (merge : List (String × JsVal) → List (String × JsVal) → List (String × JsVal))
    (rootPath directory : String) :
    ∀ (fuel : Nat) (name : String) (params : List (String × JsVal)) (fn : String),
      loadConfig cyclicEnv rootPath merge fuel directory name params fn = none := by
  intro fuel
  induction fuel with
  | zero => intro name params fn; rfl
  | succ n ih =>
    intro name params fn
    unfold loadConfig
    rw [show cyclicEnv (pathJoin rootPath (pathJoin directory (name ++ ".js")))
          = some cyclicModule from rfl]
    simp only [cyclicModule,
      show objGet [("extends", JsVal.str "a")] "extends" = some (JsVal.str "a") from rfl,
      show jsTruthy (JsVal.str "a") = true from rfl, jsToStr,
      eq_self_iff_true, if_true]
    rw [ih "a" params ""]

/-- C5: a loaded configuration with a truthy `extends` field makes the loader
load the named parent recursively with exactly the same parameter bag and no
variant selector, delete the `extends` field, and return the child merged on
top of the parent by the external merge function; and no cycle detection
exists — on a cyclic `extends` chain the recursion never returns at any
depth (`none` at every fuel). -/
theorem loadConfig_inheritance :
    (∀ (env : ModuleEnv) (rootPath : String)
       (merge : List (String × JsVal) → List (String × JsVal) → List (String × JsVal))
       (fuel : Nat) (directory name : String) (params : List (String × JsVal))
       (fn : String) (m : ConfigModule)
       (f : List (String × JsVal) → List (String × JsVal)) (v : JsVal),
       env (pathJoin rootPath (pathJoin directory (name ++ ".js"))) = some m →
       m fn = some f →
       objGet (f params) "extends" = some v →
       jsTruthy v = true →
       loadConfig env rootPath merge (fuel + 1) directory name params fn =
         (loadConfig env rootPath merge fuel directory (jsToStr v) params "").map
           (fun base => merge base (objDelete (f params) "extends"))) ∧
    (∀ (merge : List (String × JsVal) → List (String × JsVal) → List (String × JsVal))
       (fuel : Nat) (params : List (String × JsVal)) (fn : String),
       loadConfig cyclicEnv "" merge fuel "d" "a" params fn = none) := by
  constructor
  · intro env rootPath merge fuel directory name params fn m f v h1 h2 h3 h4
    conv_lhs => rw [loadConfig]
    simp only [h1, h2, h3, h4, eq_self_iff_true, if_true]
    cases loadConfig env rootPath merge fuel directory (jsToStr v) params "" with
    | none => rfl
    | some base => rfl
  · intro merge fuel params fn
    exact cyclicEnv_diverges merge "" "d" fuel "a" params fn

/-- The child configuration function used to witness C5. -/
def wChildF : List (String × JsVal) → List (String × JsVal) :=
  fun _ => [("extends", JsVal.str "base"), ("name", JsVal.str "c")]

/-- The child configuration module used to witness C5. -/
def wChild : ConfigModule := fun _ => some wChildF

/-- The parent configuration module used to witness C5. -/
def wBase : ConfigModule :=
  fun _ => some (fun _ => [("fromBase", JsVal.boolean true)])

/-- A two-file module system: `d/child.js` extends `d/base.js`. -/
def wEnv : ModuleEnv := fun p =>
  if p == "/d/child.js" then some wChild
  else if p == "/d/base.js" then some wBase
  else none

/-- Witness for C5 at the concrete two-file module system `wEnv`, and for the
cyclic part at fuel 3. -/
theorem loadConfig_inheritance_witness :
    wEnv (pathJoin "" (pathJoin "d" ("child" ++ ".js"))) = some wChild ∧
    wChild "" = some wChildF ∧
    objGet (wChildF []) "extends" = some (JsVal.str "base") ∧
    jsTruthy (JsVal.str "base") = true ∧
    loadConfig wEnv "" objAssign 2 "d" "child" [] "" =
      (loadConfig wEnv "" objAssign 1 "d" "base" [] "").map
        (fun base => objAssign base (objDelete (wChildF []) "extends")) ∧
    loadConfig cyclicEnv "" objAssign 3 "d" "a" [] "" = none :=
  ⟨rfl, rfl, rfl, rfl,
   loadConfig_inheritance.1 wEnv "" objAssign 1 "d" "child" [] "" wChild wChildF
     (JsVal.str "base") rfl rfl rfl rfl,
   loadConfig_inheritance.2 objAssign 3 [] ""⟩

/-- C8: `config` resolves the module at `{directory}/{target}.{type}.js`
(relative to the project root), calls the default export or the one named by
`fn`, passing the bag `Object.assign({hash, hashStr}, params)` with
`hash`/`hashStr` derived from `useHash`, and when the produced object has no
`extends` field it returns exactly that object. -/
theorem config_no_extends (env : ModuleEnv) (rootPath : String)
    (merge : List (String × JsVal) → List (String × JsVal) → List (String × JsVal))
    (now fuel : Nat) (directory target type : String) (useHash : Bool)
    (params : Option (List (String × JsVal))) (fn : Option String)
    (m : ConfigModule) (f : List (String × JsVal) → List (String × JsVal))
    (h1 : env (pathJoin rootPath
        (pathJoin directory (target ++ "." ++ type ++ ".js"))) = some m)
    (h2 : m (fn.getD "") = some f)
    (h3 : objGet (f (objAssign
        [("hash", if useHash then JsVal.num now else JsVal.str ""),
         ("hashStr", JsVal.str (if useHash then "." ++ toString now else ""))]
        (params.getD []))) "extends" = none) :
    config env rootPath merge now (fuel + 1) directory target type useHash params fn =
      some (f (objAssign
        [("hash", if useHash then JsVal.num now else JsVal.str ""),
         ("hashStr", JsVal.str (if useHash then "." ++ toString now else ""))]
        (params.getD []))) := by
  unfold config configParams
  conv_lhs => rw [loadConfig]
  rw [show (target ++ "." ++ type) ++ ".js" = target ++ "." ++ type ++ ".js" by
        simp [String.append_assoc]]
  simp only [h1, h2, h3]

/-- The identity configuration function: it hands back the parameter bag it
received, making the bag observable in the loader's result. -/
def probeF : List (String × JsVal) → List (String × JsVal) := fun p => p

/-- A module whose every export is `probeF`. -/
def probeModule : ConfigModule := fun _ => some probeF

/-- A module system in which every path resolves to `probeModule`. -/
def probeEnv : ModuleEnv := fun _ => some probeModule

/-- A merge function that is never reached in the probe scenarios. -/
def mergeNoop : List (String × JsVal) → List (String × JsVal) → List (String × JsVal) :=
  fun a _ => a

/-- Witness for C8 at the probe module system with `useHash := true`. -/
theorem config_no_extends_witness :
    probeEnv (pathJoin "" (pathJoin "d" ("t" ++ "." ++ "x" ++ ".js"))) = some probeModule ∧
    config probeEnv "" mergeNoop 7 2 "d" "t" "x" true none none =
      some [("hash", JsVal.num 7), ("hashStr", JsVal.str ".7")] :=
  ⟨rfl,
   by
    rw [config_no_extends probeEnv "" mergeNoop 7 1 "d" "t" "x" true none none
          probeModule probeF rfl rfl rfl]
    rfl⟩

theorem objGet_objAssign_of_none {α : Type} (base upd : List (String × α))
    (k : String) (h : objGet upd k = none) :
    objGet (objAssign base upd) k = objGet base k := by
  induction upd generalizing base with
  | nil => rfl
  | cons p rest ih =>
    rw [objGet_cons] at h
    by_cases hb : p.1 = k
    · rw [if_pos (beq_iff_eq.mpr hb)] at h
      exact absurd h (by simp)
    · rw [if_neg (by simpa using beq_eq_false_iff_ne.mpr hb)] at h
      show objGet (objAssign (objSet base p.1 p.2) rest) k = objGet base k
      rw [ih (objSet base p.1 p.2) h, objGet_objSet]
      exact if_neg fun e => hb e.symm

/-- C9 counterexample: calling `config` with `useHash = true` but with caller
params that bind `hash` themselves (here `hash := 42`, at `Date.now() = 0`)
produces a bag whose `hash` is `42` while `hashStr` is `".0"`, which is not
`"." + String(hash)` — the claimed mutual consistency fails for such params
because `Object.assign` lets caller keys override `hash` independently of
`hashStr`. -/
theorem config_hash_consistency_cex :
    config probeEnv "" mergeNoop 0 2 "d" "t" "x" true
        (some [("hash", JsVal.num 42)]) none =
      some [("hash", JsVal.num 42), ("hashStr", JsVal.str ".0")] ∧
    objGet [("hash", JsVal.num 42), ("hashStr", JsVal.str ".0")] "hash" =
      some (JsVal.num 42) ∧
    objGet [("hash", JsVal.num 42), ("hashStr", JsVal.str ".0")] "hashStr" ≠
      some (JsVal.str ("." ++ jsToStr (JsVal.num 42))) :=
  ⟨rfl, rfl, by decide⟩

/-- C9 (amended): with `useHash = true`, the parameter bag handed to the
configuration function satisfies `hashStr = "." + String(hash)` with `hash`
the bag's own `hash` field, for every caller-supplied `params` that does not
itself bind the `hash` or `hashStr` keys. -/
theorem config_hash_consistency (now : Nat) (params : List (String × JsVal))
    (h1 : objGet params "hash" = none) (h2 : objGet params "hashStr" = none) :
    ∃ h, objGet (configParams now true (some params)) "hash" = some h ∧
      objGet (configParams now true (some params)) "hashStr" =
        some (JsVal.str ("." ++ jsToStr h)) := by
  refine ⟨JsVal.num now, ?_, ?_⟩
  · unfold configParams
    rw [show (some params).getD [] = params from rfl, objGet_objAssign_of_none _ _ _ h1]
    rfl
  · unfold configParams
    rw [show (some params).getD [] = params from rfl, objGet_objAssign_of_none _ _ _ h2]
    rfl

/-- Witness for the amended C9 at a concrete params object binding neither
`hash` nor `hashStr`. -/
theorem config_hash_consistency_witness :
    objGet [("a", JsVal.str "b")] "hash" = none ∧
    objGet [("a", JsVal.str "b")] "hashStr" = none ∧
    ∃ h, objGet (configParams 5 true (some [("a", JsVal.str "b")])) "hash" = some h ∧
      objGet (configParams 5 true (some [("a", JsVal.str "b")])) "hashStr" =
        some (JsVal.str ("." ++ jsToStr h)) :=
  ⟨rfl, rfl, config_hash_consistency 5 [("a", JsVal.str "b")] rfl rfl⟩

theorem resolveEntry_preset_missing (entries : List String) (e : String)
    (he : e ≠ "") (hmem : entries.contains e = false) :
    resolveEntry entries (some e) =
      (none, [logLine ("The required entry (" ++ e ++ ") doesn\x27t exist"),
              availableLog entries]) := by
  have hm : e ∉ entries := by simpa using hmem
  unfold resolveEntry
  simp [strTruthy, beq_eq_false_iff_ne.mpr he, hm]

theorem resolveEntry_none_single (a : String) :
    resolveEntry [a] none =
      (some a, [logLine ("Using the only available entry: " ++ a)]) := by
  simp [resolveEntry, strTruthy]

theorem resolveEntry_none_multi (a b : String) (rest : List String) :
    resolveEntry (a :: b :: rest) none =
      (some a, [logLine ("Doing fallback to the first entry: " ++ a),
                availableLog (a :: b :: rest)]) := by
  have h1 : ((a :: b :: rest).length == 1) = false := by
    simp [List.length_cons]
  have h2 : decide (1 < (a :: b :: rest).length) = true := by
    simp [List.length_cons]
  simp [resolveEntry, strTruthy, h1, h2]

theorem resolveEntry_preset_found (entries : List String) (e : String)
    (he : e ≠ "") (hmem : entries.contains e = true) :
    resolveEntry entries (some e) =
      (some e, [logLine ("Using the following entry: " ++ e)]) := by
  have hm : e ∈ entries := by simpa using hmem
  unfold resolveEntry
  simp [strTruthy, beq_eq_false_iff_ne.mpr he, hm, jsTemplateOpt]

theorem entryPathStage_some (resolve : String → String)
    (assets : List (String × Asset)) (e : String) (he : e ≠ "") :
    entryPathStage resolve assets (some e) =
      some (resolve (((lookupAsset assets e).bind Asset.existsAt).getD ""),
        logLine ("Entry file: " ++
          resolve (((lookupAsset assets e).bind Asset.existsAt).getD ""))) := by
  simp [entryPathStage, beq_eq_false_iff_ne.mpr he]

theorem onAssetsEmitted_fresh (resolve : String → String)
    (assets : List (String × Asset)) (s : RunnerState) (h : s.setup = false) :
    onAssetsEmitted resolve assets s =
      match entryPathStage resolve assets
          (resolveEntry (entryCandidates assets) s.entry).1 with
      | some pl =>
        ({ s with
            setup := true
            entry := (resolveEntry (entryCandidates assets) s.entry).1
            entryPath := some pl.1 },
         ⟨[], [], "" :: ((resolveEntry (entryCandidates assets) s.entry).2 ++ [pl.2]), 1⟩)
      | none =>
        ({ s with
            setup := true
            entry := (resolveEntry (entryCandidates assets) s.entry).1 },
         ⟨[], [], "" :: (resolveEntry (entryCandidates assets) s.entry).2, 1⟩) := by
  unfold onAssetsEmitted
  rw [if_neg (by simp [h])]

/-- C2: on the first `after-emit`, in priority order: a pre-set entry that is
not among the filtered candidates reports the error, clears the selection and
lists the candidates; with no pre-set name and a single candidate that one is
selected; with no pre-set name and several candidates the first by iteration
order is selected with a warning and the candidate listing; a pre-set name
that is found is kept with a confirmation; and whenever an entry ends up
selected its resolved on-disk path is stored. -/
theorem afterEmit_resolution_policy (resolve : String → String)
    (assets : List (String × Asset)) (s : RunnerState) (h : s.setup = false) :
    (∀ e, s.entry = some e → e ≠ "" →
       (entryCandidates assets).contains e = false →
       (onAssetsEmitted resolve assets s).1.entry = none ∧
       (onAssetsEmitted resolve assets s).1.entryPath = s.entryPath ∧
       (onAssetsEmitted resolve assets s).2.logs =
         ["", logLine ("The required entry (" ++ e ++ ") doesn\x27t exist"),
          availableLog (entryCandidates assets)]) ∧
    (∀ a, s.entry = none → entryCandidates assets = [a] →
       (onAssetsEmitted resolve assets s).1.entry = some a ∧
       logLine ("Using the only available entry: " ++ a) ∈
         (onAssetsEmitted resolve assets s).2.logs) ∧
    (∀ a b rest, s.entry = none → entryCandidates assets = a :: b :: rest →
       (onAssetsEmitted resolve assets s).1.entry = some a ∧
       logLine ("Doing fallback to the first entry: " ++ a) ∈
         (onAssetsEmitted resolve assets s).2.logs ∧
       availableLog (entryCandidates assets) ∈
         (onAssetsEmitted resolve assets s).2.logs) ∧
    (∀ e, s.entry = some e → e ≠ "" →
       (entryCandidates assets).contains e = true →
       (onAssetsEmitted resolve assets s).1.entry = some e ∧
       logLine ("Using the following entry: " ++ e) ∈
         (onAssetsEmitted resolve assets s).2.logs) ∧
    (∀ e, (onAssetsEmitted resolve assets s).1.entry = some e → e ≠ "" →
       (onAssetsEmitted resolve assets s).1.entryPath =
         some (resolve (((lookupAsset assets e).bind Asset.existsAt).getD ""))) := by
  refine ⟨?_, ?_, ?_, ?_, ?_⟩
  · intro e hse hne hc
    rw [onAssetsEmitted_fresh resolve assets s h, hse,
        resolveEntry_preset_missing (entryCandidates assets) e hne hc]
    simp [entryPathStage]
  · intro a hse hc
    rw [onAssetsEmitted_fresh resolve assets s h, hse, hc, resolveEntry_none_single a]
    cases hps : entryPathStage resolve assets (some a) with
    | some pl => simp [hps]
    | none => simp [hps]
  · intro a b rest hse hc
    rw [onAssetsEmitted_fresh resolve assets s h, hse, hc,
        resolveEntry_none_multi a b rest]
    cases hps : entryPathStage resolve assets (some a) with
    | some pl => simp [hps, hc]
    | none => simp [hps, hc]
  · intro e hse hne hc
    rw [onAssetsEmitted_fresh resolve assets s h, hse,
        resolveEntry_preset_found (entryCandidates assets) e hne hc,
        entryPathStage_some resolve assets e hne]
    simp
  · intro e hres hne
    rw [onAssetsEmitted_fresh resolve assets s h] at hres ⊢
    cases hps : entryPathStage resolve assets
        (resolveEntry (entryCandidates assets) s.entry).1 with
    | some pl =>
      simp only [hps] at hres ⊢
      have hr1 : (resolveEntry (entryCandidates assets) s.entry).1 = some e := hres
      rw [hr1, entryPathStage_some resolve assets e hne] at hps
      have hpl := (Option.some.inj hps).symm
      rw [hpl]
    | none =>
      simp only [hps] at hres
      have hr1 : (resolveEntry (entryCandidates assets) s.entry).1 = some e := hres
      rw [hr1, entryPathStage_some resolve assets e hne] at hps
      exact absurd hps (by simp)

/-- Witness for C2: two candidates and no pre-set entry — the first is
selected, with the warning and the availability listing logged. -/
theorem afterEmit_resolution_policy_witness :
    (mkRunner none).setup = false ∧
    entryCandidates twoAssets = ["backend", "app"] ∧
    (onAssetsEmitted id twoAssets (mkRunner none)).1.entry = some "backend" ∧
    logLine ("Doing fallback to the first entry: " ++ "backend") ∈
      (onAssetsEmitted id twoAssets (mkRunner none)).2.logs :=
  ⟨rfl, by decide,
   ((afterEmit_resolution_policy id twoAssets (mkRunner none) rfl).2.2.1
       "backend" "app" [] rfl (by decide)).1,
   ((afterEmit_resolution_policy id twoAssets (mkRunner none) rfl).2.2.1
       "backend" "app" [] rfl (by decide)).2.1⟩
